import Mathlib

/-!
Verification of the noiseflow particle simulation (src/main.rs).

The simulation core is shallowly embedded over the reals: every `f32`
value of the source is modelled as a real number, and each Rust function
of the core becomes a Lean definition with the same structure.  The
ambient thread RNG used by `random_range` is passed explicitly as a
stream of raw draws.  Division by zero, which in the floating-point
source produces NaN, is the Lean convention `x / 0 = 0`; every theorem
below either avoids that case by hypothesis or only asserts that an
equation fails there (it fails under both semantics, since NaN compares
unequal to everything).
-/

noncomputable section

namespace Noiseflow

/-- Model of glam's `Vec2` (two `f32` components), over ℝ. -/
@[ext]
structure V2 where
  x : ℝ
  y : ℝ

instance : Add V2 := ⟨fun a b => ⟨a.x + b.x, a.y + b.y⟩⟩

/-- Vector-times-scalar, as written `v * c` throughout the source. -/
instance : HMul V2 ℝ V2 := ⟨fun v c => ⟨v.x * c, v.y * c⟩⟩

@[simp] lemma V2.add_x (a b : V2) : (a + b).x = a.x + b.x := rfl

@[simp] lemma V2.add_y (a b : V2) : (a + b).y = a.y + b.y := rfl

@[simp] lemma V2.mul_x (v : V2) (c : ℝ) : (v * c).x = v.x * c := rfl

@[simp] lemma V2.mul_y (v : V2) (c : ℝ) : (v * c).y = v.y * c := rfl

/-- glam `Vec2::length_squared`: the dot product of the vector with itself. -/
def V2.lengthSq (v : V2) : ℝ := v.x * v.x + v.y * v.y

/-- glam `Vec2::length`. -/
def V2.len (v : V2) : ℝ := Real.sqrt v.lengthSq

/-- glam `Vec2::clamp_length(min, max)`: compare the squared length with
`min*min` and `max*max`, and rescale by `min / length` (resp. `max / length`)
when out of range.  On the zero vector with `min > 0` the float source
divides zero by zero and returns a NaN vector; the real model returns the
zero vector. -/
def V2.clampLength (v : V2) (lo hi : ℝ) : V2 :=
  if v.lengthSq < lo * lo then v * (lo / Real.sqrt v.lengthSq)
  else if v.lengthSq > hi * hi then v * (hi / Real.sqrt v.lengthSq)
  else v

/-- nannou's `Vec2Rotate::rotate` for `Vec2`: rotation by an angle in radians. -/
def V2.rotate (v : V2) (r : ℝ) : V2 :=
  ⟨v.x * Real.cos r - v.y * Real.sin r, v.x * Real.sin r + v.y * Real.cos r⟩

lemma V2.lengthSq_nonneg (v : V2) : 0 ≤ v.lengthSq :=
  add_nonneg (mul_self_nonneg v.x) (mul_self_nonneg v.y)

lemma V2.lengthSq_eq_zero_iff (v : V2) : v.lengthSq = 0 ↔ v = ⟨0, 0⟩ := by
  constructor
  · intro h
    unfold V2.lengthSq at h
    have hx : v.x * v.x = 0 := by
      nlinarith [mul_self_nonneg v.x, mul_self_nonneg v.y]
    have hy : v.y * v.y = 0 := by
      nlinarith [mul_self_nonneg v.x, mul_self_nonneg v.y]
    ext
    · exact mul_self_eq_zero.mp hx
    · exact mul_self_eq_zero.mp hy
  · intro h
    subst h
    simp [V2.lengthSq]

lemma V2.lengthSq_pos (v : V2) (hv : v ≠ ⟨0, 0⟩) : 0 < v.lengthSq :=
  lt_of_le_of_ne (V2.lengthSq_nonneg v)
    (fun h => hv ((V2.lengthSq_eq_zero_iff v).mp h.symm))

lemma V2.len_nonneg (v : V2) : 0 ≤ v.len := Real.sqrt_nonneg _

@[simp] lemma V2.len_zero : (V2.mk 0 0).len = 0 := by
  simp [V2.len, V2.lengthSq]

@[simp] lemma V2.len_unitX : (V2.mk 1 0).len = 1 := by
  simp [V2.len, V2.lengthSq]

lemma V2.len_hmul (v : V2) (c : ℝ) : (v * c).len = v.len * |c| := by
  have h : (v * c).lengthSq = v.lengthSq * (c * c) := by
    simp only [V2.lengthSq, V2.mul_x, V2.mul_y]
    ring
  rw [V2.len, h, Real.sqrt_mul (V2.lengthSq_nonneg v), Real.sqrt_mul_self_eq_abs]
  rfl

/-- Rescaling a nonzero vector by `m / length` with both clamp bounds equal
to the same positive `m` yields a vector of length exactly `m`. -/
lemma V2.clampLength_exact (v : V2) (m : ℝ) (hm : 0 < m) (hv : v ≠ ⟨0, 0⟩) :
    (v.clampLength m m).len = m := by
  have hls : 0 < v.lengthSq := V2.lengthSq_pos v hv
  have hsqrt : 0 < Real.sqrt v.lengthSq := Real.sqrt_pos.mpr hls
  have hscale : ∀ c : ℝ, 0 < c → (v * (c / Real.sqrt v.lengthSq)).len = c := by
    intro c hc
    rw [V2.len_hmul, abs_of_pos (div_pos hc hsqrt)]
    show Real.sqrt v.lengthSq * (c / Real.sqrt v.lengthSq) = c
    field_simp
  unfold V2.clampLength
  split_ifs with h1 h2
  · exact hscale m hm
  · exact hscale m hm
  · have heq : v.lengthSq = m * m := le_antisymm (not_lt.mp h2) (not_lt.mp h1)
    rw [V2.len, heq, Real.sqrt_mul_self hm.le]

/-- Clamping the unit x-vector with both bounds `m ≥ 0` gives `(m, 0)`. -/
lemma V2.clampLength_unitX (m : ℝ) (hm : 0 ≤ m) :
    (V2.mk 1 0).clampLength m m = ⟨m, 0⟩ := by
  have hls : (V2.mk 1 0).lengthSq = 1 := by simp [V2.lengthSq]
  unfold V2.clampLength
  rw [hls]
  split_ifs with h1 h2
  · rw [Real.sqrt_one]
    ext <;> simp
  · rw [Real.sqrt_one]
    ext <;> simp
  · have h3 : m = 1 := by nlinarith
    subst h3
    ext <;> simp

/-- Clamping the zero vector yields the zero vector in the real model
(NaN in the float source when `lo > 0`; either way its length is not the
requested one, which is all any theorem below uses). -/
lemma V2.clampLength_zero (lo hi : ℝ) :
    (V2.mk 0 0).clampLength lo hi = ⟨0, 0⟩ := by
  unfold V2.clampLength
  split_ifs <;> ext <;> simp

/-- Rust `f32 as i32`: truncation toward zero (saturation at the `i32`
range is not reached by any value considered here). -/
def truncF (r : ℝ) : ℤ := if 0 ≤ r then ⌊r⌋ else ⌈r⌉

/-- Rust `f32 as usize`: truncation toward zero, negatives saturating to 0. -/
def usizeOfF32 (r : ℝ) : ℕ := (truncF r).toNat

/-- noise crate `utils::NoiseMap` as built by `PlaneMapBuilder`: a
`width × height` grid of scalar values plus the border value returned for
out-of-range lookups (`0.0` by default, and the builder never changes it). -/
structure NoiseMap where
  width : ℕ
  height : ℕ
  values : ℕ → ℕ → ℝ
  border : ℝ

/-- noise crate `NoiseMap::get_value(x, y)`: the stored value when `(x, y)`
is inside the grid, the border value otherwise (no panic on any input). -/
def NoiseMap.get_value (m : NoiseMap) (x y : ℕ) : ℝ :=
  if x < m.width ∧ y < m.height then m.values x y else m.border

/-- nannou `Rect` as the simulation uses it: `xy()` is the center
`(cx, cy)`, `w_h()` is `(w, h)`. -/
structure Bounds where
  cx : ℝ
  cy : ℝ
  w : ℝ
  h : ℝ

/-- The `Settings` struct of the source, field for field. -/
structure Settings where
  paused : Bool
  noise_seed : ℕ
  draw_background : Bool
  draw_particles : Bool
  draw_flowfield : Bool
  particle_count : ℕ
  particle_velocity : ℝ
  particle_size : ℝ
  particle_steer : ℝ
  particle_flow_force : ℝ

/-- The `Particle` struct of the source. -/
structure Particle where
  position : V2
  velocity : V2

/-- nannou `random_range(lo, hi)` over `i32`, i.e. rand's `gen_range` on
the half-open range `[lo, hi)`; `r` is the raw draw taken from the thread
RNG stream, reduced into the range.  The source panics on an empty range;
theorems below exclude that case by hypothesis. -/
def random_range (lo hi : ℤ) (r : ℕ) : ℤ := lo + (r : ℤ) % (hi - lo)

/-- `Model::generate_map(seed, bounds)` (source lines 60–70): sizes the
plane builder to `(w as usize, h as usize)` and fills the grid from the
seeded OpenSimplex noise.  `backend seed x y` abstracts the deterministic
value the seeded noise algorithm produces at grid cell `(x, y)`; `_rng`
is the ambient thread RNG stream, which this function never consults. -/
def generate_map (backend : ℕ → ℕ → ℕ → ℝ) (seed : ℕ) (bounds : Bounds)
    (_rng : ℕ → ℕ) : NoiseMap :=
  { width := usizeOfF32 bounds.w
    height := usizeOfF32 bounds.h
    values := fun x y => backend seed x y
    border := 0 }

/-- `Model::generate_particles(count, bounds)` (source lines 72–93): for
each of `count` particles, `origin = bounds.xy()` (the rect center), one
integer draw in `[0, w as i32)` and one in `[0, h as i32)`, position
`origin + (x, 0) + (0, y)`, velocity zero.  `rng` is the thread RNG
stream; particle `i` takes draws `2*i` and `2*i+1`. -/
def generate_particles (count : ℕ) (bounds : Bounds) (rng : ℕ → ℕ) :
    List Particle :=
  (List.range count).map (fun i =>
    let origin : V2 := ⟨bounds.cx, bounds.cy⟩
    let x : ℝ := (random_range 0 (truncF bounds.w) (rng (2 * i)) : ℤ)
    let y : ℝ := (random_range 0 (truncF bounds.h) (rng (2 * i + 1)) : ℤ)
    { position := origin + ⟨x, 0⟩ + ⟨0, y⟩
      velocity := ⟨0, 0⟩ })

/-- The scalar lookup inside `Model::sample_direction` (source line 54):
`self.map.get_value(x as usize, y as usize)`. -/
def sample_at (m : NoiseMap) (x y : ℝ) : ℝ :=
  m.get_value (usizeOfF32 x) (usizeOfF32 y)

/-- `Model::sample_direction` (source lines 53–58): read the scalar, scale
it to the angle `v * 2 * π`, rotate the unit x-vector by it. -/
def sample_direction (m : NoiseMap) (x y : ℝ) : V2 :=
  V2.rotate ⟨1, 0⟩ (sample_at m x y * 2 * Real.pi)

/-- Source line 215–216: sampled direction scaled by `particle_flow_force`. -/
def flow_dir (s : Settings) (m : NoiseMap) (p : Particle) : V2 :=
  sample_direction m p.position.x p.position.y * s.particle_flow_force

/-- Source line 218: `particle.velocity * (1.0 - particle_flow_force)`. -/
def inertia (s : Settings) (p : Particle) : V2 :=
  p.velocity * (1 - s.particle_flow_force)

/-- Source line 220: `direction + inertia`, before the length clamp. -/
def steer_blend (s : Settings) (m : NoiseMap) (p : Particle) : V2 :=
  flow_dir s m p + inertia s p

/-- Source lines 221–224: the blend length-clamped with both bounds equal
to `particle.velocity.length().max(1.0)`. -/
def steer_target (s : Settings) (m : NoiseMap) (p : Particle) : V2 :=
  (steer_blend s m p).clampLength (max p.velocity.len 1) (max p.velocity.len 1)

/-- Source lines 226–227: `velocity * (1 - steer) + steer_target * steer`,
before the speed clamp. -/
def vel_blend (s : Settings) (m : NoiseMap) (p : Particle) : V2 :=
  p.velocity * (1 - s.particle_steer) + steer_target s m p * s.particle_steer

/-- Source lines 228–231: the blend length-clamped with both bounds equal
to `particle_velocity` (the max speed). -/
def step_velocity (s : Settings) (m : NoiseMap) (p : Particle) : V2 :=
  (vel_blend s m p).clampLength s.particle_velocity s.particle_velocity

/-- One axis of the toroidal wrap (source lines 240–250): a single-step
shift by the domain size, not a modulo. -/
def wrap1 (w x : ℝ) : ℝ :=
  if x < 0 then x + w else if x > w then x - w else x

/-- The per-particle body of the tick (source lines 212–253): new velocity,
integrate `position + velocity * dt`, then wrap each axis against
`bounds.w_h()`.  `dt` is the already-scaled deltatime of line 213. -/
def step_particle (s : Settings) (m : NoiseMap) (bounds : Bounds) (dt : ℝ)
    (p : Particle) : Particle :=
  let velocity := step_velocity s m p
  let pos := p.position + velocity * dt
  { position := ⟨wrap1 bounds.w pos.x, wrap1 bounds.h pos.y⟩
    velocity := velocity }

/-- The `Model` struct restricted to simulation state (the `egui` handle
is presentation glue outside the core). -/
structure Model where
  settings : Settings
  map : NoiseMap
  bounds : Bounds
  particles : List Particle

/-- The simulation part of `update` (source lines 204–256): return the
model unchanged when paused, otherwise replace the particle list by the
mapped step, with `deltatime = since_last * 100` (line 213).  The egui
settings window earlier in `update` is the external settings surface; a
tick with no slider change leaves `settings`, `map` and `bounds` as they
were, which is what this function models. -/
def sim_tick (m : Model) (since_last : ℝ) : Model :=
  if m.settings.paused = true then m
  else
    { m with
      particles :=
        m.particles.map
          (step_particle m.settings m.map m.bounds (since_last * 100)) }

/-- One axis of the wrap keeps the coordinate in the closed interval
`[0, w]` whenever the incoming coordinate lies in `[-w, 2w]`.  The value
`w` itself is reachable (the guards are strict), so the invariant the wrap
restores is the closed interval, not `[0, w)`. -/
lemma wrap1_mem (w x : ℝ) (h1 : -w ≤ x) (h2 : x ≤ 2 * w) :
    0 ≤ wrap1 w x ∧ wrap1 w x ≤ w := by
  unfold wrap1
  split_ifs with ha hb
  · constructor <;> linarith
  · constructor <;> linarith
  · constructor <;> linarith

lemma truncF_le_self (w : ℝ) (h : 0 < truncF w) : (truncF w : ℝ) ≤ w := by
  unfold truncF at *
  by_cases hw : 0 ≤ w
  · rw [if_pos hw] at *
    exact Int.floor_le w
  · rw [if_neg hw] at h
    have hc : ⌈w⌉ ≤ 0 := Int.ceil_le.mpr (by push_cast; linarith [not_le.mp hw])
    omega

lemma usizeOfF32_nonpos (r : ℝ) (h : r < 0) : usizeOfF32 r = 0 := by
  unfold usizeOfF32 truncF
  rw [if_neg (not_le.mpr h)]
  have hc : ⌈r⌉ ≤ 0 := Int.ceil_le.mpr (by push_cast; linarith)
  omega

lemma usizeOfF32_natCast (n : ℕ) : usizeOfF32 (n : ℝ) = n := by
  unfold usizeOfF32 truncF
  rw [if_pos (Nat.cast_nonneg n), Int.floor_natCast]
  simp

/-- Evaluation of the steering pipeline when `particle_flow_force = 0` and
the previous velocity is the unit x-vector: the flow term vanishes and the
inertia term carries through. -/
lemma steer_blend_eval (s : Settings) (m : NoiseMap) (p : Particle)
    (hf : s.particle_flow_force = 0) (hv : p.velocity = ⟨1, 0⟩) :
    steer_blend s m p = ⟨1, 0⟩ := by
  unfold steer_blend flow_dir inertia
  rw [hf, hv]
  ext <;> simp

lemma steer_target_eval (s : Settings) (m : NoiseMap) (p : Particle)
    (hf : s.particle_flow_force = 0) (hv : p.velocity = ⟨1, 0⟩) :
    steer_target s m p = ⟨1, 0⟩ := by
  unfold steer_target
  rw [steer_blend_eval s m p hf hv, hv, V2.len_unitX, max_self]
  exact V2.clampLength_unitX 1 (by norm_num)

lemma vel_blend_eval (s : Settings) (m : NoiseMap) (p : Particle)
    (hf : s.particle_flow_force = 0) (hs : s.particle_steer = 0)
    (hv : p.velocity = ⟨1, 0⟩) : vel_blend s m p = ⟨1, 0⟩ := by
  unfold vel_blend
  rw [steer_target_eval s m p hf hv, hv, hs]
  ext <;> simp

lemma step_velocity_eval (s : Settings) (m : NoiseMap) (p : Particle)
    (hf : s.particle_flow_force = 0) (hs : s.particle_steer = 0)
    (hv : p.velocity = ⟨1, 0⟩) (hm : 0 ≤ s.particle_velocity) :
    step_velocity s m p = ⟨s.particle_velocity, 0⟩ := by
  unfold step_velocity
  rw [vel_blend_eval s m p hf hs hv]
  exact V2.clampLength_unitX _ hm

/-- Evaluation of the steering pipeline when `particle_flow_force = 0` and
the previous velocity is zero: every blend is the zero vector, so each
renormalizing clamp receives the zero vector. -/
lemma steer_blend_zero (s : Settings) (m : NoiseMap) (p : Particle)
    (hf : s.particle_flow_force = 0) (hv : p.velocity = ⟨0, 0⟩) :
    steer_blend s m p = ⟨0, 0⟩ := by
  unfold steer_blend flow_dir inertia
  rw [hf, hv]
  ext <;> simp

lemma steer_target_zero (s : Settings) (m : NoiseMap) (p : Particle)
    (hf : s.particle_flow_force = 0) (hv : p.velocity = ⟨0, 0⟩) :
    steer_target s m p = ⟨0, 0⟩ := by
  unfold steer_target
  rw [steer_blend_zero s m p hf hv]
  exact V2.clampLength_zero _ _

lemma vel_blend_zero (s : Settings) (m : NoiseMap) (p : Particle)
    (hf : s.particle_flow_force = 0) (hv : p.velocity = ⟨0, 0⟩) :
    vel_blend s m p = ⟨0, 0⟩ := by
  unfold vel_blend
  rw [steer_target_zero s m p hf hv, hv]
  ext <;> simp

lemma step_velocity_zero (s : Settings) (m : NoiseMap) (p : Particle)
    (hf : s.particle_flow_force = 0) (hv : p.velocity = ⟨0, 0⟩) :
    step_velocity s m p = ⟨0, 0⟩ := by
  unfold step_velocity
  rw [vel_blend_zero s m p hf hv]
  exact V2.clampLength_zero _ _

/-- Fixtures: the app's window bounds (1200 × 800, centered at the
origin), a constant-zero noise map of the grid size, and settings with
`flow force = 0`, `steering = 0`, `velocity = 1` (all within the UI
slider ranges). -/
def bounds0 : Bounds := ⟨0, 0, 1200, 800⟩

def map0 : NoiseMap := ⟨120, 80, fun _ _ => 0, 0⟩

def s0 : Settings := ⟨false, 0, true, true, false, 400, 1, 1, 0, 0⟩

def pA : Particle := ⟨⟨600, 400⟩, ⟨1, 0⟩⟩

def pZero : Particle := ⟨⟨600, 400⟩, ⟨0, 0⟩⟩

def pEdge : Particle := ⟨⟨1199, 400⟩, ⟨1, 0⟩⟩

/-- Claim C4: whenever `paused` is true, a tick leaves every particle's
position and velocity (indeed the whole model) identical to before, for
any number of consecutive paused ticks: the paused branch of `update`
returns before touching the particle list. -/
theorem c4_pause_identity (m : Model) (dts : List ℝ)
    (h : m.settings.paused = true) : dts.foldl sim_tick m = m := by
  induction dts with
  | nil => rfl
  | cons d ds ih =>
    rw [List.foldl_cons]
    have hm : sim_tick m d = m := by
      unfold sim_tick
      rw [if_pos h]
    rw [hm]
    exact ih

def mPaused : Model := ⟨{ s0 with paused := true }, map0, bounds0, [pA]⟩

/-- Witness for C4: two consecutive paused ticks on a concrete model
leave it unchanged. -/
theorem c4_witness : [(1 : ℝ), 2].foldl sim_tick mPaused = mPaused :=
  c4_pause_identity mPaused [1, 2] rfl

/-- Claim C10: a non-paused tick replaces the particle list by its image
under the per-particle step — same length, and the particle at index `i`
of the new list is the stepped particle at index `i` of the old list — and
leaves the map, bounds and settings untouched (no slider change is part
of the modelled tick). -/
theorem c10_frame_effect (m : Model) (dt : ℝ)
    (h : m.settings.paused = false) :
    (sim_tick m dt).particles.length = m.particles.length ∧
    (∀ i : ℕ, (sim_tick m dt).particles[i]? =
      (m.particles[i]?).map (step_particle m.settings m.map m.bounds (dt * 100))) ∧
    (sim_tick m dt).map = m.map ∧ (sim_tick m dt).bounds = m.bounds ∧
    (sim_tick m dt).settings = m.settings := by
  have hneg : ¬ (m.settings.paused = true) := by
    rw [h]
    simp
  unfold sim_tick
  rw [if_neg hneg]
  exact ⟨List.length_map _ _, fun i => List.getElem?_map _ _ i, rfl, rfl, rfl⟩

def mRun : Model := ⟨s0, map0, bounds0, [pA]⟩

/-- Witness for C10: a concrete non-paused tick preserves the particle
count and the noise map. -/
theorem c10_witness :
    (sim_tick mRun 1).particles.length = 1 ∧ (sim_tick mRun 1).map = map0 := by
  have h := c10_frame_effect mRun 1 rfl
  exact ⟨h.1, h.2.2.1⟩

/-- Claim C8: `generate_map` is a deterministic function of the seed and
bounds — its translation never consults the ambient RNG stream, so two
calls with identical arguments (under any two ambient RNG states) yield
identical maps, hence identical `get_value` at every coordinate. -/
theorem c8_determinism (backend : ℕ → ℕ → ℕ → ℝ) (seed : ℕ)
    (bounds : Bounds) (rng1 rng2 : ℕ → ℕ) :
    generate_map backend seed bounds rng1 = generate_map backend seed bounds rng2 ∧
    ∀ x y : ℕ, (generate_map backend seed bounds rng1).get_value x y =
      (generate_map backend seed bounds rng2).get_value x y :=
  ⟨rfl, fun _ _ => rfl⟩

/-- Claim C6: for any field and coordinates whose sampled scalar `v` lies
in `[0, 1]`, `sample_direction` returns `(cos (v·2π), sin (v·2π))`, a
vector of length exactly 1 in the real model.  The function is pure: its
translation is a function of the field and coordinates alone. -/
theorem c6_unit_direction (m : NoiseMap) (x y : ℝ)
    (h0 : 0 ≤ sample_at m x y) (h1 : sample_at m x y ≤ 1) :
    sample_direction m x y =
      ⟨Real.cos (sample_at m x y * (2 * Real.pi)),
       Real.sin (sample_at m x y * (2 * Real.pi))⟩ ∧
    (sample_direction m x y).len = 1 := by
  have hang : sample_at m x y * 2 * Real.pi =
      sample_at m x y * (2 * Real.pi) := mul_assoc _ _ _
  have heq : sample_direction m x y =
      ⟨Real.cos (sample_at m x y * (2 * Real.pi)),
       Real.sin (sample_at m x y * (2 * Real.pi))⟩ := by
    unfold sample_direction V2.rotate
    rw [hang]
    ext <;> simp
  refine ⟨heq, ?_⟩
  rw [heq]
  unfold V2.len V2.lengthSq
  have hone : Real.cos (sample_at m x y * (2 * Real.pi)) *
        Real.cos (sample_at m x y * (2 * Real.pi)) +
      Real.sin (sample_at m x y * (2 * Real.pi)) *
        Real.sin (sample_at m x y * (2 * Real.pi)) = 1 := by
    nlinarith [Real.sin_sq_add_cos_sq (sample_at m x y * (2 * Real.pi))]
  rw [hone, Real.sqrt_one]

/-- Witness for C6: the constant-zero field samples to `0 ∈ [0,1]` and the
direction at the origin has length 1. -/
theorem c6_witness : (sample_direction map0 0 0).len = 1 := by
  have hs : sample_at map0 0 0 = 0 := by
    simp [sample_at, usizeOfF32, truncF, NoiseMap.get_value, map0]
  exact (c6_unit_direction map0 0 0 (by simp [hs]) (by simp [hs])).2

/-- Claim C5: with bounds 1200×800, a particle at (600,400) with velocity
(1,0), `flow force = 0` and `steering = 0`, one tick with (scaled)
`dt = 1` renormalizes the velocity to `(maxSpeed, 0)` and moves the
particle to `(600 + maxSpeed, 400)` — i.e. (601,400) when `maxSpeed = 1`.
The hypotheses keep `maxSpeed` in the UI slider range `[0, 10]`, within
which the wrap is a no-op as the claim requires. -/
theorem c5_scenario (m : NoiseMap) (s : Settings)
    (hf : s.particle_flow_force = 0) (hs : s.particle_steer = 0)
    (h0 : 0 ≤ s.particle_velocity) (h10 : s.particle_velocity ≤ 10) :
    step_particle s m bounds0 1 pA =
      ⟨⟨600 + s.particle_velocity, 400⟩, ⟨s.particle_velocity, 0⟩⟩ := by
  have hvel := step_velocity_eval s m pA hf hs rfl h0
  unfold step_particle
  rw [hvel, show pA.position = V2.mk 600 400 from rfl]
  have hx : (V2.mk 600 400 + V2.mk s.particle_velocity 0 * (1:ℝ)).x =
      600 + s.particle_velocity := by simp
  have hy : (V2.mk 600 400 + V2.mk s.particle_velocity 0 * (1:ℝ)).y = 400 := by
    simp
  dsimp only
  rw [hx, hy]
  have h1 : wrap1 bounds0.w (600 + s.particle_velocity) =
      600 + s.particle_velocity := by
    rw [show bounds0.w = (1200:ℝ) from rfl]
    unfold wrap1
    rw [if_neg (by linarith), if_neg (by linarith)]
  have h2 : wrap1 bounds0.h (400:ℝ) = 400 := by
    rw [show bounds0.h = (800:ℝ) from rfl]
    unfold wrap1
    rw [if_neg (by norm_num), if_neg (by norm_num)]
  rw [h1, h2]

/-- Witness for C5: at `maxSpeed = 1` the tick lands exactly on
(601,400) with velocity (1,0). -/
theorem c5_witness : step_particle s0 map0 bounds0 1 pA = ⟨⟨601, 400⟩, ⟨1, 0⟩⟩ := by
  have h := c5_scenario map0 s0 rfl rfl (by norm_num [s0]) (by norm_num [s0])
  rw [h]
  simp only [Particle.mk.injEq, V2.mk.injEq]
  norm_num [s0]

/-- Claim C1 (amended): after a non-paused tick the particle's position
lies in the closed box `[0, W] × [0, H]`, provided the pre-wrap position
lies in `[-W, 2W] × [-H, 2H]` (the single-step wrap cannot restore the
invariant for larger displacements, and the boundary values `W`, `H`
themselves are reachable because the wrap guards are strict). -/
theorem c1_wrap_bounded (s : Settings) (m : NoiseMap) (bounds : Bounds)
    (dt : ℝ) (p : Particle)
    (hx1 : -bounds.w ≤ (p.position + step_velocity s m p * dt).x)
    (hx2 : (p.position + step_velocity s m p * dt).x ≤ 2 * bounds.w)
    (hy1 : -bounds.h ≤ (p.position + step_velocity s m p * dt).y)
    (hy2 : (p.position + step_velocity s m p * dt).y ≤ 2 * bounds.h) :
    0 ≤ (step_particle s m bounds dt p).position.x ∧
    (step_particle s m bounds dt p).position.x ≤ bounds.w ∧
    0 ≤ (step_particle s m bounds dt p).position.y ∧
    (step_particle s m bounds dt p).position.y ≤ bounds.h := by
  have hpos : (step_particle s m bounds dt p).position =
      ⟨wrap1 bounds.w (p.position + step_velocity s m p * dt).x,
       wrap1 bounds.h (p.position + step_velocity s m p * dt).y⟩ := rfl
  rw [hpos]
  have hwx := wrap1_mem bounds.w _ hx1 hx2
  have hwy := wrap1_mem bounds.h _ hy1 hy2
  exact ⟨hwx.1, hwx.2, hwy.1, hwy.2⟩

/-- Witness for C1: the concrete tick of the C5 scenario satisfies the
pre-wrap hypotheses and lands inside the closed box. -/
theorem c1_witness :
    0 ≤ (step_particle s0 map0 bounds0 1 pA).position.x ∧
    (step_particle s0 map0 bounds0 1 pA).position.x ≤ bounds0.w ∧
    0 ≤ (step_particle s0 map0 bounds0 1 pA).position.y ∧
    (step_particle s0 map0 bounds0 1 pA).position.y ≤ bounds0.h := by
  have hvel : step_velocity s0 map0 pA = ⟨1, 0⟩ :=
    step_velocity_eval s0 map0 pA rfl rfl rfl (by norm_num [s0])
  refine c1_wrap_bounded s0 map0 bounds0 1 pA ?_ ?_ ?_ ?_ <;>
    rw [hvel] <;> norm_num [pA, bounds0]

/-- Counterexample for C1 as stated: a tick may end with
`position.x = W` exactly — the wrap guard `x > W` is strict, so the
half-open invariant `0 ≤ x < W` claimed by the spec does not hold. -/
theorem c1_counterexample :
    (step_particle s0 map0 bounds0 1 pEdge).position.x = bounds0.w ∧
    ¬ ((step_particle s0 map0 bounds0 1 pEdge).position.x < bounds0.w) := by
  have hvel : step_velocity s0 map0 pEdge = ⟨1, 0⟩ :=
    step_velocity_eval s0 map0 pEdge rfl rfl rfl (by norm_num [s0])
  have hpos : (step_particle s0 map0 bounds0 1 pEdge).position.x =
      wrap1 bounds0.w (pEdge.position + step_velocity s0 map0 pEdge * (1:ℝ)).x := rfl
  have hx : (pEdge.position + step_velocity s0 map0 pEdge * (1:ℝ)).x = 1200 := by
    rw [hvel]
    norm_num [pEdge]
  have hw : wrap1 bounds0.w 1200 = 1200 := by
    rw [show bounds0.w = (1200:ℝ) from rfl]
    unfold wrap1
    rw [if_neg (by norm_num), if_neg (by norm_num)]
  rw [hpos, hx, hw, show bounds0.w = (1200:ℝ) from rfl]
  norm_num

/-- Claim C2 (amended): after a non-paused tick with `maxSpeed > 0`, the
new velocity is the blend `prevVelocity*(1-steerRate) + steerTarget*steerRate`
length-clamped with both bounds equal to `maxSpeed`, and its length is
exactly `maxSpeed` — provided the blend is not the zero vector.  (On the
zero blend the float source renormalizes `0/0` to NaN; the claimed
equation fails, see the counterexample.) -/
theorem c2_speed_renormalized (s : Settings) (m : NoiseMap) (bounds : Bounds)
    (dt : ℝ) (p : Particle) (h1 : 0 < s.particle_velocity)
    (h2 : vel_blend s m p ≠ ⟨0, 0⟩) :
    (step_particle s m bounds dt p).velocity =
      (vel_blend s m p).clampLength s.particle_velocity s.particle_velocity ∧
    ((step_particle s m bounds dt p).velocity).len = s.particle_velocity := by
  refine ⟨rfl, ?_⟩
  exact V2.clampLength_exact (vel_blend s m p) s.particle_velocity h1 h2

/-- Witness for C2: a concrete tick with nonzero blend ends with speed
exactly `maxSpeed = 1`. -/
theorem c2_witness : ((step_particle s0 map0 bounds0 1 pA).velocity).len = 1 := by
  have hb : vel_blend s0 map0 pA = ⟨1, 0⟩ := vel_blend_eval s0 map0 pA rfl rfl rfl
  have h := c2_speed_renormalized s0 map0 bounds0 1 pA (by norm_num [s0])
    (by rw [hb]; simp)
  exact h.2

/-- Counterexample for C2 as stated: with `maxSpeed = 1 > 0` but a zero
blended velocity (velocity 0, flow force 0), the tick does not produce a
velocity of length `maxSpeed` (the float source produces NaN; the real
model produces the zero vector — under either semantics
`|newVelocity| == maxSpeed` is false). -/
theorem c2_counterexample :
    0 < s0.particle_velocity ∧
    ((step_particle s0 map0 bounds0 1 pZero).velocity).len ≠ s0.particle_velocity := by
  refine ⟨by norm_num [s0], ?_⟩
  have hv : (step_particle s0 map0 bounds0 1 pZero).velocity = ⟨0, 0⟩ :=
    step_velocity_zero s0 map0 pZero rfl rfl
  rw [hv, V2.len_zero]
  norm_num [s0]

/-- Claim C3 (amended): the steering target is `flowDir + inertia`
length-clamped with both lower and upper bound equal to
`max(|prevVelocity|, 1)`, and its length is exactly that value — provided
`flowDir + inertia` is not the zero vector (on the zero vector the float
source renormalizes `0/0` to NaN, see the counterexample). -/
theorem c3_steer_renormalized (s : Settings) (m : NoiseMap) (p : Particle)
    (h : steer_blend s m p ≠ ⟨0, 0⟩) :
    steer_target s m p =
      (flow_dir s m p + inertia s p).clampLength
        (max p.velocity.len 1) (max p.velocity.len 1) ∧
    (steer_target s m p).len = max p.velocity.len 1 := by
  refine ⟨rfl, ?_⟩
  exact V2.clampLength_exact (steer_blend s m p) (max p.velocity.len 1)
    (lt_of_lt_of_le one_pos (le_max_right _ _)) h

/-- Witness for C3: for a concrete particle with velocity (1,0) and flow
force 0 the steering target has length `max(1,1) = 1`. -/
theorem c3_witness : (steer_target s0 map0 pA).len = 1 := by
  have hb : steer_blend s0 map0 pA = ⟨1, 0⟩ := steer_blend_eval s0 map0 pA rfl rfl
  have h := c3_steer_renormalized s0 map0 pA (by rw [hb]; simp)
  rw [h.2, show pA.velocity = V2.mk 1 0 from rfl, V2.len_unitX, max_self]

/-- Counterexample for C3 as stated: with zero previous velocity and flow
force 0 the blend `flowDir + inertia` is the zero vector and the steering
target does not have length `max(|prevVelocity|, 1) = 1`. -/
theorem c3_counterexample :
    (steer_target s0 map0 pZero).len ≠ max pZero.velocity.len 1 := by
  have ht : steer_target s0 map0 pZero = ⟨0, 0⟩ :=
    steer_target_zero s0 map0 pZero rfl rfl
  rw [ht, V2.len_zero, show pZero.velocity = V2.mk 0 0 from rfl, V2.len_zero,
    max_eq_right (by norm_num : (0:ℝ) ≤ 1)]
  norm_num

/-- Claim C7 (amended): regeneration produces exactly `count` particles,
each with zero initial velocity and position equal to the bounds *center*
plus an integer RNG offset in `[0, ⌊W⌋) × [0, ⌊H⌋)` — so positions lie in
`[cx, cx+W) × [cy, cy+H)`.  Only when the bounds rect is centered at the
origin (as the app's window rect is) does this give `[0, W) × [0, H)`;
for an arbitrary bounds rect the claimed `x ∈ [0, W)` fails, see the
counterexample. -/
theorem c7_regeneration (count : ℕ) (bounds : Bounds) (rng : ℕ → ℕ)
    (hw : 0 < truncF bounds.w) (hh : 0 < truncF bounds.h) :
    (generate_particles count bounds rng).length = count ∧
    ∀ p ∈ generate_particles count bounds rng,
      p.velocity = ⟨0, 0⟩ ∧
      bounds.cx ≤ p.position.x ∧ p.position.x < bounds.cx + bounds.w ∧
      bounds.cy ≤ p.position.y ∧ p.position.y < bounds.cy + bounds.h := by
  constructor
  · unfold generate_particles
    rw [List.length_map, List.length_range]
  · intro p hp
    unfold generate_particles at hp
    rw [List.mem_map] at hp
    obtain ⟨i, hi, hpe⟩ := hp
    subst hpe
    have hxz : 0 ≤ random_range 0 (truncF bounds.w) (rng (2 * i)) ∧
        random_range 0 (truncF bounds.w) (rng (2 * i)) < truncF bounds.w := by
      unfold random_range
      constructor
      · have := Int.emod_nonneg ((rng (2 * i) : ℤ))
          (by omega : truncF bounds.w - 0 ≠ 0)
        omega
      · have := Int.emod_lt_of_pos ((rng (2 * i) : ℤ))
          (by omega : (0:ℤ) < truncF bounds.w - 0)
        omega
    have hyz : 0 ≤ random_range 0 (truncF bounds.h) (rng (2 * i + 1)) ∧
        random_range 0 (truncF bounds.h) (rng (2 * i + 1)) < truncF bounds.h := by
      unfold random_range
      constructor
      · have := Int.emod_nonneg ((rng (2 * i + 1) : ℤ))
          (by omega : truncF bounds.h - 0 ≠ 0)
        omega
      · have := Int.emod_lt_of_pos ((rng (2 * i + 1) : ℤ))
          (by omega : (0:ℤ) < truncF bounds.h - 0)
        omega
    have hwR : (truncF bounds.w : ℝ) ≤ bounds.w := truncF_le_self bounds.w hw
    have hhR : (truncF bounds.h : ℝ) ≤ bounds.h := truncF_le_self bounds.h hh
    have hx0 : (0:ℝ) ≤ (random_range 0 (truncF bounds.w) (rng (2 * i)) : ℤ) := by
      exact_mod_cast hxz.1
    have hx1 : ((random_range 0 (truncF bounds.w) (rng (2 * i)) : ℤ) : ℝ) <
        (truncF bounds.w : ℝ) := by exact_mod_cast hxz.2
    have hy0 : (0:ℝ) ≤ (random_range 0 (truncF bounds.h) (rng (2 * i + 1)) : ℤ) := by
      exact_mod_cast hyz.1
    have hy1 : ((random_range 0 (truncF bounds.h) (rng (2 * i + 1)) : ℤ) : ℝ) <
        (truncF bounds.h : ℝ) := by exact_mod_cast hyz.2
    refine ⟨rfl, ?_, ?_, ?_, ?_⟩ <;>
      simp only [V2.add_x, V2.add_y] <;> linarith

def rng7 : ℕ → ℕ := fun _ => 7

lemma truncF_twelve_hundred : truncF (1200:ℝ) = 1200 := by
  unfold truncF
  rw [if_pos (by norm_num)]
  norm_num

lemma truncF_eight_hundred : truncF (800:ℝ) = 800 := by
  unfold truncF
  rw [if_pos (by norm_num)]
  norm_num

/-- Witness for C7: the app bounds satisfy the hypotheses and a
regeneration with count 2 yields exactly 2 particles. -/
theorem c7_witness : (generate_particles 2 bounds0 rng7).length = 2 := by
  have hw : 0 < truncF bounds0.w := by
    rw [show bounds0.w = (1200:ℝ) from rfl, truncF_twelve_hundred]
    norm_num
  have hh : 0 < truncF bounds0.h := by
    rw [show bounds0.h = (800:ℝ) from rfl, truncF_eight_hundred]
    norm_num
  exact (c7_regeneration 2 bounds0 rng7 hw hh).1

def bounds1 : Bounds := ⟨100, 0, 10, 10⟩

def rng5 : ℕ → ℕ := fun _ => 5

lemma truncF_ten : truncF (10:ℝ) = 10 := by
  unfold truncF
  rw [if_pos (by norm_num)]
  norm_num

/-- Counterexample for C7 as stated: `generate_particles` adds the bounds
*center* (`bounds.xy()`), so for a bounds rect of width 10 centered at
x = 100 the generated particle sits at x = 105, not in the claimed
`[0, W) = [0, 10)`. -/
theorem c7_counterexample :
    (generate_particles 1 bounds1 rng5)[0]? = some ⟨⟨105, 5⟩, ⟨0, 0⟩⟩ ∧
    ¬ ((105:ℝ) < bounds1.w) := by
  constructor
  · have hx5 : ((random_range 0 (truncF bounds1.w) (rng5 (2 * 0)) : ℤ) : ℝ) = 5 := by
      rw [show bounds1.w = (10:ℝ) from rfl, truncF_ten,
        show rng5 (2 * 0) = 5 from rfl]
      norm_num [random_range]
    have hy5 : ((random_range 0 (truncF bounds1.h) (rng5 (2 * 0 + 1)) : ℤ) : ℝ) = 5 := by
      rw [show bounds1.h = (10:ℝ) from rfl, truncF_ten,
        show rng5 (2 * 0 + 1) = 5 from rfl]
      norm_num [random_range]
    have hval : generate_particles 1 bounds1 rng5 = [⟨⟨105, 5⟩, ⟨0, 0⟩⟩] := by
      unfold generate_particles
      rw [show List.range 1 = [0] from rfl, List.map_cons, List.map_nil]
      congr 1
      dsimp only
      rw [hx5, hy5, show bounds1.cx = (100:ℝ) from rfl,
        show bounds1.cy = (0:ℝ) from rfl]
      congr 1
      ext <;> simp <;> norm_num
    rw [hval]
    rfl
  · rw [show bounds1.w = (10:ℝ) from rfl]
    norm_num

/-- Claim C9 (amended): the lookup pipeline of `sample_direction` is total
for every real coordinate pair — negative coordinates are clamped to cell
0 by the saturating `as usize` cast, and coordinates at or beyond the
grid size return the map's border value (a fixed scalar, not a clamped or
wrapped in-grid sample — see the counterexample); every result is either
the border value or an in-grid cell value, and no input fails. -/
theorem c9_total_lookup (m : NoiseMap) (x y : ℝ) :
    (x < 0 → sample_at m x y = sample_at m 0 y) ∧
    (y < 0 → sample_at m x y = sample_at m x 0) ∧
    ((m.width ≤ usizeOfF32 x ∨ m.height ≤ usizeOfF32 y) →
      sample_at m x y = m.border) ∧
    (sample_at m x y = m.border ∨
      ∃ i j, i < m.width ∧ j < m.height ∧ sample_at m x y = m.values i j) := by
  have hz : usizeOfF32 (0:ℝ) = 0 := by
    rw [show (0:ℝ) = ((0:ℕ):ℝ) by norm_num, usizeOfF32_natCast]
  refine ⟨?_, ?_, ?_, ?_⟩
  · intro hxneg
    unfold sample_at
    rw [usizeOfF32_nonpos x hxneg, hz]
  · intro hyneg
    unfold sample_at
    rw [usizeOfF32_nonpos y hyneg, hz]
  · intro hc
    unfold sample_at NoiseMap.get_value
    rw [if_neg]
    intro hcc
    rcases hc with h | h
    · omega
    · omega
  · unfold sample_at NoiseMap.get_value
    by_cases hc : usizeOfF32 x < m.width ∧ usizeOfF32 y < m.height
    · right
      exact ⟨usizeOfF32 x, usizeOfF32 y, hc.1, hc.2, by rw [if_pos hc]⟩
    · left
      rw [if_neg hc]

def backend1 : ℕ → ℕ → ℕ → ℝ := fun _ i _ => ((i : ℝ) + 1) / 4

def bounds2 : Bounds := ⟨0, 0, 2, 2⟩

def map1 : NoiseMap := generate_map backend1 0 bounds2 rng5

lemma map1_width : map1.width = 2 := by
  show usizeOfF32 bounds2.w = 2
  rw [show bounds2.w = ((2:ℕ):ℝ) by norm_num [bounds2], usizeOfF32_natCast]

lemma map1_height : map1.height = 2 := by
  show usizeOfF32 bounds2.h = 2
  rw [show bounds2.h = ((2:ℕ):ℝ) by norm_num [bounds2], usizeOfF32_natCast]

/-- Witness for C9: on a concrete built field, a negative x-coordinate is
clamped to cell 0 and a far out-of-range coordinate returns the border. -/
theorem c9_witness :
    sample_at map1 (-1) 1 = sample_at map1 0 1 ∧
    sample_at map1 99 0 = map1.border := by
  constructor
  · exact (c9_total_lookup map1 (-1) 1).1 (by norm_num)
  · refine (c9_total_lookup map1 99 0).2.2.1 (Or.inl ?_)
    rw [map1_width, show (99:ℝ) = ((99:ℕ):ℝ) by norm_num, usizeOfF32_natCast]
    norm_num

/-- Counterexample for C9 as stated: on a built field of width 2 the
lookup at x = 2 (one cell beyond the grid, exactly what the flow-field
renderer samples) returns the border value, which is neither the clamped
in-grid sample at x = 1 nor the modulo sample at x = 0 — the out-of-range
handling is a border value, not clamping or modulo. -/
theorem c9_counterexample :
    sample_at map1 2 0 ≠ sample_at map1 1 0 ∧
    sample_at map1 2 0 ≠ sample_at map1 0 0 := by
  have hu2 : usizeOfF32 (2:ℝ) = 2 := by
    rw [show (2:ℝ) = ((2:ℕ):ℝ) by norm_num, usizeOfF32_natCast]
  have hu1 : usizeOfF32 (1:ℝ) = 1 := by
    rw [show (1:ℝ) = ((1:ℕ):ℝ) by norm_num, usizeOfF32_natCast]
  have hu0 : usizeOfF32 (0:ℝ) = 0 := by
    rw [show (0:ℝ) = ((0:ℕ):ℝ) by norm_num, usizeOfF32_natCast]
  have he2 : sample_at map1 2 0 = 0 := by
    unfold sample_at NoiseMap.get_value
    rw [hu2, hu0, if_neg (by rw [map1_width]; omega)]
    rfl
  have he1 : sample_at map1 1 0 = 1 / 2 := by
    unfold sample_at NoiseMap.get_value
    rw [hu1, hu0, if_pos (by rw [map1_width, map1_height]; omega)]
    show backend1 0 1 0 = 1 / 2
    unfold backend1
    norm_num
  have he0 : sample_at map1 0 0 = 1 / 4 := by
    unfold sample_at NoiseMap.get_value
    rw [hu0, if_pos (by rw [map1_width, map1_height]; omega)]
    show backend1 0 0 0 = 1 / 4
    unfold backend1
    norm_num
  rw [he2, he1, he0]
  norm_num

end Noiseflow
